import Mathlib

/-!
Verification of the file/media synchronization pipeline of the modnfun
repository (Shopify theme sync scripts).  The JavaScript sources are
embedded shallowly: string-processing helpers become functions on
`List Char`, network calls become scripted `Except` responses, and the
sequential sync loops become folds over descriptor lists.
-/

set_option maxRecDepth 4000

/-! ## Duplicate key computation (`getBaseFilename`)

`scripts/sync-images-check.js` lines 179-187:

```js
function getBaseFilename(filename) {
  const nameWithoutExt = filename.replace(/\.[^/.]+$/, "");
  let baseName = nameWithoutExt.replace(/_\d+x\d+$/, "");
  baseName = baseName.replace(/_(hd|sd|720p|1080p|4k)$/i, "");
  return baseName;
}
```

The regex `\.[^/.]+$` removes the last `.` together with the nonempty
dot-free slash-free run after it (if the text after the last dot contains
`/` or is empty, nothing matches).  We scan the reversed character list:
walk over non-dot non-slash characters; on meeting `.` after at least one
such character, drop everything consumed including the dot. -/

def stripExtAux : List Char → Bool → Option (List Char)
  | [], _ => none
  | c :: rest, seen =>
    if c = '.' then (if seen then some rest else none)
    else if c = '/' then none
    else stripExtAux rest true

def stripExtension (s : List Char) : List Char :=
  match stripExtAux s.reverse false with
  | some r => r.reverse
  | none => s

/-- The regex `_\d+x\d+$` on the reversed list: digits, `x`, digits, `_`. -/
def stripSizeRev (rev : List Char) : Option (List Char) :=
  if rev.takeWhile Char.isDigit = [] then none
  else
    match rev.dropWhile Char.isDigit with
    | [] => none
    | x :: r2 =>
      if x = 'x' then
        if r2.takeWhile Char.isDigit = [] then none
        else
          match r2.dropWhile Char.isDigit with
          | [] => none
          | y :: r4 => if y = '_' then some r4 else none
      else none

def stripSizeSuffix (s : List Char) : List Char :=
  match stripSizeRev s.reverse with
  | some r => r.reverse
  | none => s

/-- The alternatives of `_(hd|sd|720p|1080p|4k)$/i`. -/
def qualityTokens : List (List Char) :=
  [['h', 'd'], ['s', 'd'], ['7', '2', '0', 'p'], ['1', '0', '8', '0', 'p'], ['4', 'k']]

/-- Match one alternative (given reversed) against the reversed input,
case-insensitively, then require the `_` before it. -/
def dropTokenRev (rev tokRev : List Char) : Option (List Char) :=
  match tokRev with
  | [] =>
    match rev with
    | [] => none
    | c :: rest => if c = '_' then some rest else none
  | t :: ts =>
    match rev with
    | [] => none
    | c :: rest => if Char.toLower c = t then dropTokenRev rest ts else none

def stripQualityRev (rev : List Char) : Option (List Char) :=
  qualityTokens.findSome? (fun t => dropTokenRev rev t.reverse)

def stripQualitySuffix (s : List Char) : List Char :=
  match stripQualityRev s.reverse with
  | some r => r.reverse
  | none => s

/-- `getBaseFilename` of `sync-images-check.js` (media variant). -/
def getBaseFilename (s : List Char) : List Char :=
  stripQualitySuffix (stripSizeSuffix (stripExtension s))

/-- `getBaseFilename` of `complete-file-sync.js` (image-only variant:
no video-quality strip). -/
def getBaseFilenameImages (s : List Char) : List Char :=
  stripSizeSuffix (stripExtension s)

def getBaseFilenameStr (s : String) : String :=
  ⟨getBaseFilename s.data⟩

/-- Modelled from the spec: `DuplicateKey(filename)` strips exactly one
trailing extension and AT MOST ONE trailing resolution-or-quality suffix
token.  (A trailing token cannot be both a `_<w>x<h>` size and a quality
word, so one combined strip is: size if it matches, else quality.)
Compared against `getBaseFilename`, which strips a size suffix and then
additionally a quality suffix. -/
def duplicateKeySpec (s : List Char) : List Char :=
  let n := stripExtension s
  match stripSizeRev n.reverse with
  | some r => r.reverse
  | none => stripQualitySuffix n

/-! ## Reference rewriter (`replace-shopify-urls.js`)

`processFile` (lines 146-199) scans a file's text with the regex
`/shopify:\/\/(?:shop_images|files|videos)\/[^"'\s]+/g`, dedups the
matches keeping first-occurrence order (`new Set(matches)`), and for each
distinct token extracts the trailing filename
(`/shopify:\/\/[^\/]+\/(.+)/`), resolves it via `getCDNUrl` and, when the
lookup resolves, runs a global replace of the escaped literal token with
the resolved URL. -/

def protoHead : List Char := "shopify://".data

/-- `\s` core characters (the matched tokens never involve the Unicode
space variants of JS `\s`, so the ASCII set suffices for the scan). -/
def isJsSpace (c : Char) : Bool :=
  c = ' ' || c = '\t' || c = '\n' || c = '\r' || c = '\x0b' || c = '\x0c'

/-- The character class `[^"'\s]`. -/
def isTokenChar (c : Char) : Bool :=
  !(c = '"' || c = '\'' || isJsSpace c)

/-- Consume an expected literal; the regex-engine step for a fixed word. -/
def stripWordL : List Char → List Char → Option (List Char)
  | [], l => some l
  | _ :: _, [] => none
  | p :: ps, c :: cs => if c = p then stripWordL ps cs else none

def categoryWords : List (List Char) :=
  ["shop_images".data, "files".data, "videos".data]

/-- Try the alternation `(?:shop_images|files|videos)` at the head. -/
def matchCategory (l : List Char) : Option (List Char × List Char) :=
  categoryWords.findSome? (fun w => (stripWordL w l).map (fun rest => (w, rest)))

/-- Try the whole token regex anchored at the head of `l`; returns the
matched token and the remaining input after it. -/
def matchTokenAt (l : List Char) : Option (List Char × List Char) :=
  match stripWordL protoHead l with
  | none => none
  | some r1 =>
    match matchCategory r1 with
    | none => none
    | some (cat, r2) =>
      match r2 with
      | '/' :: r3 =>
        let body := r3.takeWhile isTokenChar
        if body = [] then none
        else some (protoHead ++ cat ++ '/' :: body, r3.dropWhile isTokenChar)
      | _ => none

/-- The `/g` scan of `content.match(shopifyUrlRegex)`: left to right, at
each position try the token regex; on a match record it and continue
after it, otherwise advance one character.  Fuel-based recursion (the
fuel `content.length` is always sufficient: a match consumes at least
the ten characters of `shopify://`). -/
def findMatchesFuel : Nat → List Char → List (List Char)
  | 0, _ => []
  | _, [] => []
  | fuel + 1, c :: cs =>
    match matchTokenAt (c :: cs) with
    | some (tok, rest) => tok :: findMatchesFuel fuel rest
    | none => findMatchesFuel fuel cs

def findMatches (content : List Char) : List (List Char) :=
  findMatchesFuel content.length content

/-- `[...new Set(matches)]`: distinct matches in first-occurrence order. -/
def dedupFirstAux (seen : List (List Char)) : List (List Char) → List (List Char)
  | [] => []
  | x :: xs =>
    if x ∈ seen then dedupFirstAux seen xs
    else x :: dedupFirstAux (x :: seen) xs

def dedupFirst (l : List (List Char)) : List (List Char) :=
  dedupFirstAux [] l

/-- `extractFilename` (lines 138-141): `shopifyUrl.match(/shopify:\/\/[^\/]+\/(.+)/)`,
returning capture group 1.  The tokens this is applied to always start
with the literal `shopify://`, contain no whitespace, and `[^\/]+` stops
at the first `/`; the capture `(.+)` is the nonempty remainder (up to a
line terminator, which `.` does not match). -/
def extractFilename (tok : List Char) : Option (List Char) :=
  match stripWordL protoHead tok with
  | none => none
  | some r =>
    if r.takeWhile (fun c => c ≠ '/') = [] then none
    else
      match r.dropWhile (fun c => c ≠ '/') with
      | '/' :: tail =>
        if tail.takeWhile (fun c => c ≠ '\n') = [] then none
        else some (tail.takeWhile (fun c => c ≠ '\n'))
      | _ => none

/-- `content.replace(new RegExp(escapedToken, "g"), url)`: replace every
leftmost non-overlapping literal occurrence of `tok`.  Fuel-based; the
guard `tok = []` never fires on the nonempty matched tokens and keeps
the empty-pattern case inert. -/
def replaceAllFuel (tok rep : List Char) : Nat → List Char → List Char
  | 0, l => l
  | _, [] => []
  | fuel + 1, c :: cs =>
    if tok = [] then c :: replaceAllFuel tok rep fuel cs
    else
      match stripWordL tok (c :: cs) with
      | some rest => rep ++ replaceAllFuel tok rep fuel rest
      | none => c :: replaceAllFuel tok rep fuel cs

def replaceAllL (tok rep content : List Char) : List Char :=
  replaceAllFuel tok rep content.length content

/-- The same leftmost scan, but returning the fragments between the
occurrences of `tok` (head fragment, later fragments). -/
def splitPartsFuel (tok : List Char) : Nat → List Char → List Char × List (List Char)
  | 0, l => (l, [])
  | _, [] => ([], [])
  | fuel + 1, c :: cs =>
    if tok = [] then
      let r := splitPartsFuel tok fuel cs
      (c :: r.1, r.2)
    else
      match stripWordL tok (c :: cs) with
      | some rest =>
        let r := splitPartsFuel tok fuel rest
        ([], r.1 :: r.2)
      | none =>
        let r := splitPartsFuel tok fuel cs
        (c :: r.1, r.2)

def splitParts (tok content : List Char) : List Char × List (List Char) :=
  splitPartsFuel tok content.length content

/-- Interleave fragments with a separator: `joinWith sep p [q, r] =
p ++ sep ++ q ++ sep ++ r`. -/
def joinWithAux (sep : List Char) : List (List Char) → List Char
  | [] => []
  | p :: ps => sep ++ p ++ joinWithAux sep ps

def joinWith (sep p : List Char) (ps : List (List Char)) : List Char :=
  p ++ joinWithAux sep ps

/-- Decidable "contains `tok` as a contiguous substring". -/
def containsTok (tok : List Char) : List Char → Bool
  | [] => (stripWordL tok []).isSome
  | c :: cs => (stripWordL tok (c :: cs)).isSome || containsTok tok cs

/-- One step of `processFile`'s loop over the distinct tokens: extract
the filename, resolve it, and on success globally replace the token;
a failed extraction or lookup leaves the content untouched. -/
def resolveStep (resolve : List Char → Option (List Char))
    (content tok : List Char) : List Char :=
  match extractFilename tok with
  | none => content
  | some fn =>
    match resolve fn with
    | none => content
    | some url => replaceAllL tok url content

/-- The content transformation performed by `processFile` (lines
146-199): the distinct tokens are computed once from the original
content, then each is processed in order over the evolving content. -/
def processContent (resolve : List Char → Option (List Char))
    (content : List Char) : List Char :=
  (dedupFirst (findMatches content)).foldl (resolveStep resolve) content

/-- `processFile`'s write decision (lines 188-194): write back exactly
when the new content differs; `some` is the written content, `none`
means the file is not touched. -/
def processFileWrite (resolve : List Char → Option (List Char))
    (content : List Char) : Option (List Char) :=
  if processContent resolve content ≠ content then some (processContent resolve content)
  else none

/-- The on-disk content after `processFile` ran. -/
def fileAfterProcess (resolve : List Char → Option (List Char))
    (content : List Char) : List Char :=
  match processFileWrite resolve content with
  | some nc => nc
  | none => content

/-! ## Remote file lister and descriptor normalization

`getFilenameFromUrl` (`sync-files-direct.js` lines 139-147):
`url.split("/")` last element, then `.split("?")[0]`, falling back to
`"unnamed-file"` when empty. -/

def getFilenameFromUrl (url : List Char) : List Char :=
  let lastSeg := (url.reverse.takeWhile (fun c => c ≠ '/')).reverse
  let fname := lastSeg.takeWhile (fun c => c ≠ '?')
  if fname = [] then "unnamed-file".data else fname

def getFilenameFromUrlStr (url : String) : String :=
  ⟨getFilenameFromUrl url.data⟩

/-- One raw record of a `files` listing page, as consumed by
`fetchProductionFiles` (`sync-files-direct.js` lines 166-190): the three
union payloads are the fields the code inspects (`node.image.url`,
`node.url`, `node.originalSource.url`). -/
structure RawNode where
  alt : Option String
  createdAt : String
  imageUrl : Option String
  genericUrl : Option String
  videoUrl : Option String
deriving DecidableEq, Repr

/-- The normalized descriptor built by `fetchProductionFiles`. -/
structure FileInfo where
  alt : String
  createdAt : String
  url : String
  ftype : String
  filename : String
deriving DecidableEq, Repr

/-- The `if (node.image) ... else if (node.url) ... else if
(node.originalSource) ...` chain followed by `if (fileInfo.url)
allFiles.push(fileInfo)`. -/
def classifyNode (n : RawNode) : Option FileInfo :=
  match n.imageUrl with
  | some u => some ⟨n.alt.getD "", n.createdAt, u, "IMAGE", getFilenameFromUrlStr u⟩
  | none =>
    match n.genericUrl with
    | some u => some ⟨n.alt.getD "", n.createdAt, u, "FILE", getFilenameFromUrlStr u⟩
    | none =>
      match n.videoUrl with
      | some u => some ⟨n.alt.getD "", n.createdAt, u, "VIDEO", getFilenameFromUrlStr u⟩
      | none => none

/-- The descriptors produced from one listing page. -/
def processPageNodes (nodes : List RawNode) : List FileInfo :=
  nodes.filterMap classifyNode

/-- One raw record of the media listing consumed by `fetchSourceMedia`
(`sync-images-check.js` lines 228-252); that query has no GenericFile
fragment. -/
structure MediaNode where
  alt : Option String
  imageUrl : Option String
  videoUrl : Option String
deriving DecidableEq, Repr

structure MediaInfo where
  mtype : String
  url : String
  alt : String
  filename : String
deriving DecidableEq, Repr

/-- `fetchSourceMedia` uses two independent `if`s (`if (node.image)`
push IMAGE; `if (node.originalSource)` push VIDEO), not an else-chain. -/
def mediaEntriesOfNode (n : MediaNode) : List MediaInfo :=
  (match n.imageUrl with
   | some u => [⟨"IMAGE", u, n.alt.getD "", getFilenameFromUrlStr u⟩]
   | none => []) ++
  (match n.videoUrl with
   | some u => [⟨"VIDEO", u, n.alt.getD "", getFilenameFromUrlStr u⟩]
   | none => [])

def mediaEntriesOfPage (nodes : List MediaNode) : List MediaInfo :=
  (nodes.map mediaEntriesOfNode).flatten

/-! ## Duplicate checker and dedupe sync loop (`sync-images-check.js`)

Remote calls are scripted: each descriptor carries the responses the two
stores would give (`Except.error` is a transport error, a malformed
response, or a GraphQL top-level error — all of them reject the promise
and land in the `catch`). -/

/-- `checkMediaExists` (lines 192-210): true iff the search returned at
least one edge; any error is caught and yields `false`. -/
def checkMediaExists (resp : Except String (List Unit)) : Bool :=
  match resp with
  | .error _ => false
  | .ok edges => decide (edges.length > 0)

/-- The search query string `filename:${baseFilename}*` built from the
duplicate key (line 196). -/
def searchQueryFor (filename : String) : String :=
  "filename:" ++ getBaseFilenameStr filename ++ "*"

structure CreatedFile where
  imageUrl : Option String
  originalSourceUrl : Option String
  sourcesUrls : List String
deriving DecidableEq, Repr

structure CreateData where
  userErrors : List String
  files : List CreatedFile
deriving DecidableEq, Repr

inductive CreateOutcome
  | ok (url : String)
  | failed (err : String)
deriving DecidableEq, Repr

/-- URL extraction of `createMediaInTarget` (lines 295-304):
`image?.url`, else `originalSource?.url`, else `sources[0]?.url`, else
the placeholder. -/
def urlOfCreatedMedia (f : CreatedFile) : String :=
  match f.imageUrl with
  | some u => u
  | none =>
    match f.originalSourceUrl with
    | some u => u
    | none =>
      match f.sourcesUrls with
      | u :: _ => u
      | [] => "URL not available"

/-- `createMediaInTarget` (lines 271-316): a rejected request or a
non-empty `userErrors` list is caught and reported as a per-file
failure; accessing `files[0]` of an empty list throws and is caught the
same way. -/
def createMediaInTarget (resp : Except String CreateData) : CreateOutcome :=
  match resp with
  | .error e => .failed e
  | .ok d =>
    if d.userErrors ≠ [] then .failed (String.intercalate ", " d.userErrors)
    else
      match d.files with
      | [] => .failed "TypeError: createdFile is undefined"
      | f :: _ => .ok (urlOfCreatedMedia f)

/-- One source descriptor together with the scripted responses of the
target store for its duplicate check and its create mutation. -/
structure MediaItem where
  filename : String
  mtype : String
  lookupResp : Except String (List Unit)
  createResp : Except String CreateData

structure SyncCounts where
  success : Nat
  skipped : Nat
  failed : Nat
  synced : List String
  skippedFiles : List String
  failedFiles : List (String × String)
deriving DecidableEq, Repr

def initCounts : SyncCounts := ⟨0, 0, 0, [], [], []⟩

/-- The body of `syncMedia`'s `for` loop (lines 351-386). -/
def syncStep (st : SyncCounts) (m : MediaItem) : SyncCounts :=
  if checkMediaExists m.lookupResp then
    { st with skipped := st.skipped + 1,
              skippedFiles := st.skippedFiles ++ [m.filename] }
  else
    match createMediaInTarget m.createResp with
    | .ok _ => { st with success := st.success + 1,
                         synced := st.synced ++ [m.filename] }
    | .failed e => { st with failed := st.failed + 1,
                             failedFiles := st.failedFiles ++ [(m.filename, e)] }

def syncMedia (items : List MediaItem) : SyncCounts :=
  items.foldl syncStep initCounts

/-- Observable remote calls issued while handling one descriptor. -/
inductive SyncEvent
  | existsQuery (query : String)
  | createCall (filename : String)
deriving DecidableEq, Repr

/-- The calls one loop iteration issues: always the duplicate-check
query; the create mutation only when the check came back false. -/
def stepEvents (m : MediaItem) : List SyncEvent :=
  if checkMediaExists m.lookupResp then
    [.existsQuery (searchQueryFor m.filename)]
  else
    [.existsQuery (searchQueryFor m.filename), .createCall m.filename]

def syncMediaTrace (items : List MediaItem) : List SyncEvent :=
  (items.map stepEvents).flatten

/-! ## Direct sync orchestrator (`sync-files-direct.js`) -/

structure DirectCreatedFile where
  imageUrl : Option String
  url : Option String
  sourcesUrls : List String
deriving DecidableEq, Repr

structure DirectCreateData where
  userErrors : List String
  files : List DirectCreatedFile
deriving DecidableEq, Repr

/-- URL extraction of `createFileInStaging` (lines 245-250). -/
def urlOfCreatedDirect (f : DirectCreatedFile) : String :=
  match f.imageUrl with
  | some u => u
  | none =>
    match f.url with
    | some u => u
    | none =>
      match f.sourcesUrls with
      | u :: _ => u
      | [] => "URL not available"

/-- `createFileInStaging` (lines 209-262): every throw inside the `try`
(rejected request, `userErrors`, `files[0]` access) is caught and
returned as `{success:false}`; the function never propagates an
exception. -/
def createFileInStaging (resp : Except String DirectCreateData) : CreateOutcome :=
  match resp with
  | .error e => .failed e
  | .ok d =>
    if d.userErrors ≠ [] then .failed (String.intercalate ", " d.userErrors)
    else
      match d.files with
      | [] => .failed "TypeError: createdFile is undefined"
      | f :: _ => .ok (urlOfCreatedDirect f)

/-- One production descriptor with the staging store's scripted response
to its create mutation. -/
structure FileItem where
  filename : String
  ftype : String
  url : String
  alt : String
  createResp : Except String DirectCreateData

structure DirectCounts where
  success : Nat
  failed : Nat
  attempts : List String
  failedFiles : List (String × String)
deriving DecidableEq, Repr

def initDirect : DirectCounts := ⟨0, 0, [], []⟩

/-- The body of `syncFiles`' `for` loop (lines 301-327); `attempts`
records that `createFileInStaging` was invoked for the descriptor. -/
def directStep (st : DirectCounts) (f : FileItem) : DirectCounts :=
  match createFileInStaging f.createResp with
  | .ok _ => { st with success := st.success + 1,
                       attempts := st.attempts ++ [f.filename] }
  | .failed e => { st with failed := st.failed + 1,
                           attempts := st.attempts ++ [f.filename],
                           failedFiles := st.failedFiles ++ [(f.filename, e)] }

/-- The placeholder-credential check of `syncFiles` (lines 274-288). -/
def placeholderConfig (prodToken stagToken : String) : Bool :=
  prodToken == "your-production-access-token"
    || stagToken == "your-staging-access-token"

/-- `fatal` is `process.exit(1)`; `completed` is a run that reaches the
summary and exits with status 0. -/
inductive RunResult
  | fatal
  | completed (c : DirectCounts)
deriving DecidableEq, Repr

/-- `syncFiles` (lines 267-346): placeholder credentials exit 1 before
any network call; a listing error propagates to the outer catch and
exits 1; otherwise the loop runs to completion over every descriptor. -/
def syncFiles (prodToken stagToken : String)
    (listing : Except String (List FileItem)) : RunResult :=
  if placeholderConfig prodToken stagToken then .fatal
  else
    match listing with
    | .error _ => .fatal
    | .ok files => .completed (files.foldl directStep initDirect)

/-! ## Staged upload (`upload-files-to-staging.js`) -/

structure StagedParam where
  name : String
  value : String
deriving DecidableEq, Repr

structure StagedTarget where
  url : String
  resourceUrl : String
  parameters : List StagedParam
deriving DecidableEq, Repr

inductive FormPart
  | field (name value : String)
  | filePart (filename : String)
deriving DecidableEq, Repr

/-- The multipart body built by `uploadToStagedUrl` (lines 147-203):
`stagedTarget.parameters.forEach(param => form.append(...))` in the
server-given order, then the file part appended last. -/
def buildMultipartParts (t : StagedTarget) (filename : String) : List FormPart :=
  t.parameters.map (fun p => FormPart.field p.name p.value)
    ++ [FormPart.filePart filename]

/-- Lines 178-182: `res.statusCode === 201 || 200 || 204`. -/
def uploadStatusOk (status : Nat) : Bool :=
  status == 201 || status == 200 || status == 204

/-- `uploadToStagedUrl` resolves `stagedTarget.resourceUrl` exactly on
an accepted status and rejects otherwise. -/
def uploadToStagedUrl (t : StagedTarget) (status : Nat) : Except String String :=
  if uploadStatusOk status then .ok t.resourceUrl
  else .error ("Upload failed: " ++ toString status)

structure StagedData where
  stagedTargets : List StagedTarget
  userErrors : List String
deriving DecidableEq, Repr

/-- The `fileCreate` variables built in step 3 of `uploadFile`
(lines 260-268). -/
structure FileCreateInput where
  alt : String
  contentType : String
  originalSource : String
deriving DecidableEq, Repr

/-- `uploadFile` (lines 208-297) up to the registration call: request a
staged target, post the multipart body, and on success build the
`fileCreate` input from the staged target's `resourceUrl`.  Returns the
multipart parts that were posted together with the registration input. -/
def uploadFile (filename alt : String) (stagedResp : Except String StagedData)
    (uploadStatus : Nat) : Except String (List FormPart × FileCreateInput) :=
  match stagedResp with
  | .error e => .error e
  | .ok sd =>
    if sd.userErrors ≠ [] then .error "Staged upload errors"
    else
      match sd.stagedTargets with
      | [] => .error "TypeError: stagedTarget is undefined"
      | t :: _ =>
        match uploadToStagedUrl t uploadStatus with
        | .error e => .error e
        | .ok resourceUrl =>
          .ok (buildMultipartParts t filename,
               ⟨if alt = "" then filename else alt, "FILE", resourceUrl⟩)

/-! ## Concrete instances used in counterexamples and witnesses -/

/-- A resolver mapping the filename `a` to the CDN URL `u` and
resolving nothing else. -/
def cexResolver (fn : List Char) : Option (List Char) :=
  if fn = "a".data then some "u".data else none

/-- A (deterministic) resolver whose resolved URL for `a` itself
contains a protocol token. -/
def cexResolver2 (fn : List Char) : Option (List Char) :=
  if fn = "a".data then some "shopify://files/b".data
  else if fn = "b".data then some "c".data
  else none

def cexContent : List Char := "shopify://files/a shopify://files/ab".data

def c2wContent : List Char := "x shopify://files/a y".data

def cexTokA : List Char := "shopify://files/a".data

def cexTokAB : List Char := "shopify://files/ab".data

def okCreateResp : Except String CreateData :=
  .ok ⟨[], [⟨some "https://cdn.example/x.png", none, []⟩]⟩

def mediaDup : MediaItem := ⟨"dup.png", "IMAGE", .ok [()], okCreateResp⟩

def mediaErr : MediaItem := ⟨"x.png", "IMAGE", .error "ECONNRESET", okCreateResp⟩

def mediaNew : MediaItem := ⟨"new.png", "IMAGE", .ok [], okCreateResp⟩

def mediaBad : MediaItem := ⟨"bad.png", "IMAGE", .ok [], .error "network error"⟩

def cexItems : List MediaItem := [mediaDup, mediaNew, mediaBad]

def okDirectResp : Except String DirectCreateData :=
  .ok ⟨[], [⟨some "https://cdn.example/f.png", none, []⟩]⟩

def cexFiles : List FileItem :=
  [⟨"f1.png", "IMAGE", "https://prod.example/f1.png", "", okDirectResp⟩,
   ⟨"f2.png", "IMAGE", "https://prod.example/f2.png", "", okDirectResp⟩,
   ⟨"f3.png", "IMAGE", "https://prod.example/f3.png", "", .error "network error"⟩,
   ⟨"f4.png", "IMAGE", "https://prod.example/f4.png", "", okDirectResp⟩,
   ⟨"f5.png", "IMAGE", "https://prod.example/f5.png", "", okDirectResp⟩]

def stagedT : StagedTarget :=
  ⟨"https://bucket.example/upload", "gcs://tmp/res-1",
   [⟨"key", "k1"⟩, ⟨"policy", "p0"⟩, ⟨"signature", "s9"⟩]⟩

def stagedOk : StagedData := ⟨[stagedT], []⟩

theorem stripWordL_length {p l r : List Char} (h : stripWordL p l = some r) :
    r.length + p.length = l.length := by
  induction p generalizing l with
  | nil => simp [stripWordL] at h; simp [h]
  | cons a ps ih =>
    cases l with
    | nil => simp [stripWordL] at h
    | cons c cs =>
      by_cases hc : c = a
      · simp [stripWordL, hc] at h
        have := ih h
        simp [List.length_cons]
        omega
      · simp [stripWordL, hc] at h

theorem stripWordL_append {p l r : List Char} (h : stripWordL p l = some r) :
    l = p ++ r := by
  induction p generalizing l with
  | nil => simp [stripWordL] at h; simp [h]
  | cons a ps ih =>
    cases l with
    | nil => simp [stripWordL] at h
    | cons c cs =>
      by_cases hc : c = a
      · simp [stripWordL, hc] at h
        simp [hc, ih h]
      · simp [stripWordL, hc] at h

theorem findSome?_eq_some_mem {α β : Type} {l : List α} {f : α → Option β} {b : β}
    (h : l.findSome? f = some b) : ∃ a ∈ l, f a = some b := by
  induction l with
  | nil => simp [List.findSome?] at h
  | cons x xs ih =>
    rw [List.findSome?] at h
    cases hx : f x with
    | some v => rw [hx] at h; exact ⟨x, by simp, by simp [hx, ← h]⟩
    | none =>
      rw [hx] at h
      obtain ⟨a, ha, hfa⟩ := ih h
      exact ⟨a, by simp [ha], hfa⟩

theorem matchCategory_some {l cat rest : List Char}
    (h : matchCategory l = some (cat, rest)) :
    cat ∈ categoryWords ∧ l = cat ++ rest := by
  obtain ⟨w, hw, hfw⟩ := findSome?_eq_some_mem h
  cases hsw : stripWordL w l with
  | none => simp [hsw] at hfw
  | some r =>
    simp [hsw] at hfw
    obtain ⟨h1, h2⟩ := hfw
    subst h1; subst h2
    exact ⟨hw, stripWordL_append hsw⟩

theorem dropWhile_len_le (p : Char → Bool) (l : List Char) :
    (l.dropWhile p).length ≤ l.length := by
  induction l with
  | nil => simp
  | cons a as ih =>
    rw [List.dropWhile_cons]
    by_cases hp : p a = true
    · simp only [hp, if_true]
      exact Nat.le_trans ih (by simp)
    · simp [hp]

theorem matchTokenAt_some {l tok rest : List Char}
    (h : matchTokenAt l = some (tok, rest)) :
    l = tok ++ rest ∧ protoHead.length ≤ tok.length ∧ rest.length < l.length := by
  unfold matchTokenAt at h
  cases h1 : stripWordL protoHead l with
  | none => simp [h1] at h
  | some r1 =>
    simp only [h1] at h
    cases h2 : matchCategory r1 with
    | none => simp [h2] at h
    | some cr =>
      obtain ⟨cat, r2⟩ := cr
      simp only [h2] at h
      obtain ⟨hcat, hr1⟩ := matchCategory_some h2
      cases r2 with
      | nil => simp at h
      | cons c2 r3 =>
        by_cases hc2 : c2 = '/'
        · subst hc2
          simp only at h
          by_cases hb : r3.takeWhile isTokenChar = []
          · simp [hb] at h
          · simp [hb] at h
            obtain ⟨htok, hrest⟩ := h
            have hl : l = protoHead ++ r1 := stripWordL_append h1
            constructor
            · rw [hl, hr1, ← htok, ← hrest]
              simp [List.append_assoc, List.takeWhile_append_dropWhile]
            constructor
            · rw [← htok]; simp [List.length_append]
            · rw [← hrest]
              have hd : (r3.dropWhile isTokenChar).length ≤ r3.length :=
                dropWhile_len_le isTokenChar r3
              have hr3 : r3.length < l.length := by
                rw [hl, hr1]
                simp only [List.length_append, List.length_cons, protoHead]
                omega
              omega
        · simp [hc2] at h

/-! ## Properties of the duplicate key -/

theorem mem_takeWhile_prop {p : Char → Bool} {l : List Char} {c : Char}
    (h : c ∈ l.takeWhile p) : p c = true :=
  List.mem_takeWhile_imp h

theorem stripExtAux_some {l : List Char} {seen : Bool} {r : List Char}
    (h : stripExtAux l seen = some r) :
    ∃ taken, l = taken ++ '.' :: r ∧ (∀ c ∈ taken, c ≠ '.' ∧ c ≠ '/') ∧
      (seen = false → taken ≠ []) := by
  induction l generalizing seen with
  | nil => simp [stripExtAux] at h
  | cons c rest ih =>
    by_cases hc : c = '.'
    · subst hc
      cases seen with
      | false => simp [stripExtAux] at h
      | true =>
        simp [stripExtAux] at h
        subst h
        exact ⟨[], rfl, by simp, by simp⟩
    · by_cases hs : c = '/'
      · subst hs
        simp [stripExtAux, hc] at h
      · simp only [stripExtAux, if_neg hc, if_neg hs] at h
        obtain ⟨taken, htl, hmem, _⟩ := ih h
        refine ⟨c :: taken, ?_, ?_, by simp⟩
        · rw [htl]; rfl
        · intro x hx
          rcases List.mem_cons.mp hx with h1 | h2
          · subst h1; exact ⟨hc, hs⟩
          · exact hmem x h2

theorem stripExtension_spec (s : List Char) :
    stripExtension s = s ∨
      ∃ pre suf, s = pre ++ '.' :: suf ∧ stripExtension s = pre ∧ suf ≠ [] ∧
        ∀ c ∈ suf, c ≠ '.' ∧ c ≠ '/' := by
  unfold stripExtension
  cases h : stripExtAux s.reverse false with
  | none => exact Or.inl rfl
  | some r =>
    right
    obtain ⟨taken, htl, hmem, hne⟩ := stripExtAux_some h
    have hs : s = r.reverse ++ '.' :: taken.reverse := by
      have h2 := congrArg List.reverse htl
      simp only [List.reverse_reverse] at h2
      rw [h2]
      simp [List.reverse_append, List.append_assoc]
    refine ⟨r.reverse, taken.reverse, hs, rfl, ?_, ?_⟩
    · simp [hne rfl]
    · intro c hc
      exact hmem c (List.mem_reverse.mp hc)

theorem stripSizeRev_some {rev r : List Char} (h : stripSizeRev rev = some r) :
    ∃ d1 d2, rev = d1 ++ ('x' :: (d2 ++ ('_' :: r))) ∧ d1 ≠ [] ∧ d2 ≠ [] ∧
      (∀ c ∈ d1, c.isDigit = true) ∧ (∀ c ∈ d2, c.isDigit = true) := by
  unfold stripSizeRev at h
  by_cases h1 : rev.takeWhile Char.isDigit = []
  · simp [h1] at h
  · rw [if_neg h1] at h
    cases h2 : rev.dropWhile Char.isDigit with
    | nil => rw [h2] at h; simp at h
    | cons x r2 =>
      rw [h2] at h
      simp only at h
      by_cases hx : x = 'x'
      · rw [if_pos hx] at h
        by_cases h3 : r2.takeWhile Char.isDigit = []
        · simp [h3] at h
        · rw [if_neg h3] at h
          cases h4 : r2.dropWhile Char.isDigit with
          | nil => rw [h4] at h; simp at h
          | cons y r4 =>
            rw [h4] at h
            simp only at h
            by_cases hy : y = '_'
            · rw [if_pos hy] at h
              simp only [Option.some.injEq] at h
              subst h
              subst hx
              subst hy
              have e1 : rev = rev.takeWhile Char.isDigit ++ ('x' :: r2) := by
                conv_lhs => rw [← List.takeWhile_append_dropWhile Char.isDigit rev]
                rw [h2]
              have e2 : r2 = r2.takeWhile Char.isDigit ++ ('_' :: r4) := by
                conv_lhs => rw [← List.takeWhile_append_dropWhile Char.isDigit r2]
                rw [h4]
              refine ⟨rev.takeWhile Char.isDigit, r2.takeWhile Char.isDigit,
                ?_, h1, h3, ?_, ?_⟩
              · conv_lhs => rw [e1, e2]
              · intro c hc; exact mem_takeWhile_prop hc
              · intro c hc; exact mem_takeWhile_prop hc
            · rw [if_neg hy] at h
              simp at h
      · rw [if_neg hx] at h
        simp at h

theorem stripSizeSuffix_spec (s : List Char) :
    stripSizeSuffix s = s ∨
      ∃ pre w ht, s = pre ++ ('_' :: (w ++ ('x' :: ht))) ∧ w ≠ [] ∧ ht ≠ [] ∧
        (∀ c ∈ w, c.isDigit = true) ∧ (∀ c ∈ ht, c.isDigit = true) ∧
        stripSizeSuffix s = pre := by
  unfold stripSizeSuffix
  cases h : stripSizeRev s.reverse with
  | none => exact Or.inl rfl
  | some r =>
    right
    obtain ⟨d1, d2, hrev, hd1, hd2, hm1, hm2⟩ := stripSizeRev_some h
    refine ⟨r.reverse, d2.reverse, d1.reverse, ?_, by simp [hd2], by simp [hd1],
      ?_, ?_, rfl⟩
    · have h2 := congrArg List.reverse hrev
      simp only [List.reverse_reverse] at h2
      rw [h2]
      simp [List.reverse_append, List.append_assoc]
    · intro c hc; exact hm2 c (List.mem_reverse.mp hc)
    · intro c hc; exact hm1 c (List.mem_reverse.mp hc)

theorem dropTokenRev_some {rev tokRev r : List Char}
    (h : dropTokenRev rev tokRev = some r) :
    ∃ u, rev = u ++ ('_' :: r) ∧ u.map Char.toLower = tokRev := by
  induction tokRev generalizing rev with
  | nil =>
    cases rev with
    | nil => simp [dropTokenRev] at h
    | cons c rest =>
      by_cases hc : c = '_'
      · subst hc
        simp [dropTokenRev] at h
        subst h
        exact ⟨[], rfl, rfl⟩
      · simp [dropTokenRev, hc] at h
  | cons t ts ih =>
    cases rev with
    | nil => simp [dropTokenRev] at h
    | cons c rest =>
      by_cases hc : Char.toLower c = t
      · rw [show dropTokenRev (c :: rest) (t :: ts) =
            (if Char.toLower c = t then dropTokenRev rest ts else none) from rfl,
          if_pos hc] at h
        obtain ⟨u, hu, hmap⟩ := ih h
        refine ⟨c :: u, ?_, ?_⟩
        · rw [hu]; rfl
        · simp [hmap, hc]
      · rw [show dropTokenRev (c :: rest) (t :: ts) =
            (if Char.toLower c = t then dropTokenRev rest ts else none) from rfl,
          if_neg hc] at h
        simp at h

theorem stripQualitySuffix_spec (s : List Char) :
    stripQualitySuffix s = s ∨
      ∃ pre u tok, tok ∈ qualityTokens ∧ s = pre ++ ('_' :: u) ∧
        u.map Char.toLower = tok ∧ stripQualitySuffix s = pre := by
  unfold stripQualitySuffix
  cases h : stripQualityRev s.reverse with
  | none => exact Or.inl rfl
  | some r =>
    right
    unfold stripQualityRev at h
    obtain ⟨t, ht, hdrop⟩ := findSome?_eq_some_mem h
    obtain ⟨u, hu, hmap⟩ := dropTokenRev_some hdrop
    refine ⟨r.reverse, u.reverse, t, ht, ?_, ?_, rfl⟩
    · have h2 := congrArg List.reverse hu
      simp only [List.reverse_reverse] at h2
      rw [h2]
      simp [List.reverse_append]
    · rw [List.map_reverse, hmap, List.reverse_reverse]

/-- C1, counterexample: on `clip_hd_640x480.mp4` the code's duplicate key
strips the extension, then the `_640x480` resolution suffix, then
additionally the `_hd` quality suffix — two suffix tokens — while a key
that strips at most one trailing resolution/quality suffix (as the claim
states) yields `clip_hd`. -/
theorem c1_counterexample :
    getBaseFilename ("clip_hd_640x480.mp4".data) = "clip".data ∧
    duplicateKeySpec ("clip_hd_640x480.mp4".data) = "clip_hd".data ∧
    "clip".data ≠ "clip_hd".data := by
  refine ⟨by decide, by decide, by decide⟩

/-- C1 (amended): `getBaseFilename` strips at most one trailing
extension, then at most one trailing `_<width>x<height>` resolution
suffix, then at most one trailing quality suffix (`_hd`, `_sd`, `_720p`,
`_1080p`, `_4k`, case-insensitive) — so up to two suffix tokens in
total; the example equalities
`DuplicateKey("photo_1024x1024.jpg") = DuplicateKey("photo.png") =
"photo"` hold.  Each stage either leaves its input unchanged or removes
exactly one well-formed trailing token. -/
theorem c1_base_filename_amended :
    getBaseFilenameStr "photo_1024x1024.jpg" = "photo" ∧
    getBaseFilenameStr "photo.png" = "photo" ∧
    getBaseFilenameImages ("photo_1024x1024.jpg".data) = "photo".data ∧
    (∀ s : List Char, getBaseFilename s =
      stripQualitySuffix (stripSizeSuffix (stripExtension s))) ∧
    (∀ s : List Char, stripExtension s = s ∨
      ∃ pre suf, s = pre ++ '.' :: suf ∧ stripExtension s = pre ∧ suf ≠ [] ∧
        ∀ c ∈ suf, c ≠ '.' ∧ c ≠ '/') ∧
    (∀ s : List Char, stripSizeSuffix s = s ∨
      ∃ pre w ht, s = pre ++ ('_' :: (w ++ ('x' :: ht))) ∧ w ≠ [] ∧ ht ≠ [] ∧
        (∀ c ∈ w, c.isDigit = true) ∧ (∀ c ∈ ht, c.isDigit = true) ∧
        stripSizeSuffix s = pre) ∧
    (∀ s : List Char, stripQualitySuffix s = s ∨
      ∃ pre u tok, tok ∈ qualityTokens ∧ s = pre ++ ('_' :: u) ∧
        u.map Char.toLower = tok ∧ stripQualitySuffix s = pre) :=
  ⟨by decide, by decide, by decide, fun _ => rfl,
   stripExtension_spec, stripSizeSuffix_spec, stripQualitySuffix_spec⟩

/-- C1 witness: the amended statement instantiated at `photo.png`. -/
theorem c1_witness :
    stripExtension ("photo.png".data) = "photo.png".data ∨
      ∃ pre suf, "photo.png".data = pre ++ '.' :: suf ∧
        stripExtension ("photo.png".data) = pre ∧ suf ≠ [] ∧
        ∀ c ∈ suf, c ≠ '.' ∧ c ≠ '/' :=
  c1_base_filename_amended.2.2.2.2.1 ("photo.png".data)

/-! ## Properties of the global literal replace -/

theorem stripWordL_self (tok q : List Char) : stripWordL tok (tok ++ q) = some q := by
  induction tok with
  | nil => rfl
  | cons a ps ih => simp [stripWordL, ih]

theorem stripWordL_isSome_iff {tok l : List Char} :
    (stripWordL tok l).isSome = true ↔ ∃ q, l = tok ++ q := by
  constructor
  · intro h
    cases hs : stripWordL tok l with
    | none => rw [hs] at h; simp at h
    | some q => exact ⟨q, stripWordL_append hs⟩
  · rintro ⟨q, rfl⟩
    rw [stripWordL_self]
    rfl

theorem replaceAllFuel_eq_joinWith (tok rep : List Char) :
    ∀ fuel l, replaceAllFuel tok rep fuel l =
      joinWith rep (splitPartsFuel tok fuel l).1 (splitPartsFuel tok fuel l).2 := by
  intro fuel
  induction fuel with
  | zero => intro l; simp [replaceAllFuel, splitPartsFuel, joinWith, joinWithAux]
  | succ fuel ih =>
    intro l
    cases l with
    | nil => simp [replaceAllFuel, splitPartsFuel, joinWith, joinWithAux]
    | cons c cs =>
      by_cases htok : tok = []
      · simp only [replaceAllFuel, splitPartsFuel, if_pos htok]
        rw [ih cs]
        simp [joinWith]
      · simp only [replaceAllFuel, splitPartsFuel, if_neg htok]
        cases hs : stripWordL tok (c :: cs) with
        | some rest =>
          simp only
          rw [ih rest]
          simp [joinWith, joinWithAux, List.append_assoc]
        | none =>
          simp only
          rw [ih cs]
          simp [joinWith]

theorem splitPartsFuel_join (tok : List Char) (htok : tok ≠ []) :
    ∀ fuel l, l.length ≤ fuel →
      joinWith tok (splitPartsFuel tok fuel l).1 (splitPartsFuel tok fuel l).2 = l := by
  intro fuel
  induction fuel with
  | zero => intro l _; simp [splitPartsFuel, joinWith, joinWithAux]
  | succ fuel ih =>
    intro l hl
    cases l with
    | nil => simp [splitPartsFuel, joinWith, joinWithAux]
    | cons c cs =>
      simp only [splitPartsFuel, if_neg htok]
      cases hs : stripWordL tok (c :: cs) with
      | some rest =>
        simp only
        have hlen : rest.length + tok.length = (c :: cs).length := stripWordL_length hs
        have htl : 1 ≤ tok.length := by
          cases tok with
          | nil => exact absurd rfl htok
          | cons _ _ => simp
        have hr : rest.length ≤ fuel := by
          simp only [List.length_cons] at hlen hl
          omega
        have hj := ih rest hr
        rw [stripWordL_append hs]
        have h2 := congrArg (fun x => tok ++ x) hj
        simp only [joinWith, joinWithAux] at h2 ⊢
        simp only [List.nil_append]
        rw [← List.append_assoc] at h2
        exact h2
      | none =>
        simp only
        have hcs : cs.length ≤ fuel := by
          simp only [List.length_cons] at hl
          omega
        have hj := ih cs hcs
        have h2 := congrArg (fun x => c :: x) hj
        simp only [joinWith, joinWithAux] at h2 ⊢
        simp only [List.cons_append]
        exact h2

theorem containsTok_nil_false (tok : List Char) (htok : tok ≠ []) :
    containsTok tok [] = false := by
  cases tok with
  | nil => exact absurd rfl htok
  | cons t ts => simp [containsTok, stripWordL]

/-- The fragments produced by the leftmost scan contain no occurrence of
the token: an occurrence inside a fragment would have been a position at
which the scan matched. -/
theorem splitPartsFuel_no_tok (tok : List Char) (htok : tok ≠ []) :
    ∀ fuel l, l.length ≤ fuel →
      ∀ p ∈ (splitPartsFuel tok fuel l).1 :: (splitPartsFuel tok fuel l).2,
        containsTok tok p = false := by
  intro fuel
  induction fuel with
  | zero =>
    intro l hl p hp
    have hnil : l = [] := List.length_eq_zero.mp (Nat.le_zero.mp hl)
    subst hnil
    simp [splitPartsFuel] at hp
    rw [hp]
    exact containsTok_nil_false tok htok
  | succ fuel ih =>
    intro l hl p hp
    cases l with
    | nil =>
      simp [splitPartsFuel] at hp
      rw [hp]
      exact containsTok_nil_false tok htok
    | cons c cs =>
      simp only [splitPartsFuel, if_neg htok] at hp
      cases hs : stripWordL tok (c :: cs) with
      | some rest =>
        rw [hs] at hp
        simp only at hp
        rcases List.mem_cons.mp hp with h1 | h2
        · rw [h1]
          exact containsTok_nil_false tok htok
        · have hlen : rest.length + tok.length = (c :: cs).length := stripWordL_length hs
          have htl : 1 ≤ tok.length := by
            cases tok with
            | nil => exact absurd rfl htok
            | cons _ _ => simp
          have hr : rest.length ≤ fuel := by
            simp only [List.length_cons] at hlen hl
            omega
          exact ih rest hr p h2
      | none =>
        rw [hs] at hp
        simp only at hp
        have hcs : cs.length ≤ fuel := by
          simp only [List.length_cons] at hl
          omega
        rcases List.mem_cons.mp hp with h1 | h2
        · subst h1
          have hhead : containsTok tok (splitPartsFuel tok fuel cs).1 = false :=
            ih cs hcs _ (by simp)
          simp only [containsTok]
          rw [hhead]
          simp only [Bool.or_false]
          cases hsp : stripWordL tok (c :: (splitPartsFuel tok fuel cs).1) with
          | none => simp
          | some q =>
            exfalso
            have hdecomp := splitPartsFuel_join tok htok fuel cs hcs
            have e1 : c :: (splitPartsFuel tok fuel cs).1 = tok ++ q :=
              stripWordL_append hsp
            have e2 : c :: cs =
                tok ++ (q ++ joinWithAux tok (splitPartsFuel tok fuel cs).2) := by
              conv_lhs => rw [← hdecomp]
              simp only [joinWith]
              rw [← List.append_assoc, ← List.cons_append, e1, List.append_assoc]
            have hsome : (stripWordL tok (c :: cs)).isSome = true :=
              stripWordL_isSome_iff.mpr ⟨_, e2⟩
            rw [hs] at hsome
            simp at hsome
        · exact ih cs hcs p (List.mem_cons_of_mem _ h2)

/-! ## C8: write-back exactly on change -/

/-- C8: `processFile` writes the file back iff the rewritten content
differs from the original; when nothing changed the stored content is
exactly the original (no write occurs, leaving content and modification
time untouched), and a written file holds exactly the rewritten
content. -/
theorem c8_write_iff_changed (resolve : List Char → Option (List Char))
    (content : List Char) :
    ((processFileWrite resolve content).isSome = true ↔
      processContent resolve content ≠ content) ∧
    (processFileWrite resolve content = none →
      fileAfterProcess resolve content = content) ∧
    (∀ nc, processFileWrite resolve content = some nc →
      nc = processContent resolve content ∧ nc ≠ content ∧
      fileAfterProcess resolve content = nc) := by
  unfold fileAfterProcess processFileWrite
  by_cases h : processContent resolve content = content
  · simp [h]
  · simp [h]

/-- C8 witness: on a file containing one resolvable token the rewrite
changes the content and a write is issued. -/
theorem c8_witness :
    (processFileWrite cexResolver c2wContent).isSome = true ∧
    processContent cexResolver c2wContent ≠ c2wContent :=
  ⟨(c8_write_iff_changed cexResolver c2wContent).1.mpr (by decide), by decide⟩

/-! ## C2: per-token rewrite correctness -/

theorem extractFilename_tok_ne_nil {tok fn : List Char}
    (h : extractFilename tok = some fn) : tok ≠ [] := by
  unfold extractFilename at h
  cases hs : stripWordL protoHead tok with
  | none => rw [hs] at h; simp at h
  | some r =>
    have happ := stripWordL_append hs
    intro hnil
    rw [hnil] at happ
    simp [protoHead] at happ

/-- C2 (amended): the rewrite processes the distinct matched tokens
sequentially in first-match order, each step replacing every literal
occurrence present at that point.  When the file has a single distinct
matched token `t`: if the lookup resolves to `u`, the output is exactly
the original with every literal occurrence of `t` replaced by `u` (the
token-free fragments are preserved verbatim and interleaved with `u`);
if the lookup does not resolve, the content is returned completely
unchanged.  With several distinct tokens an earlier replacement can
rewrite or destroy occurrences of a later token (`c2_counterexample`),
so the per-token guarantee holds only token by token on the evolving
content. -/
theorem c2_rewrite_single_token (resolve : List Char → Option (List Char))
    (content t fn : List Char)
    (h1 : dedupFirst (findMatches content) = [t])
    (h2 : extractFilename t = some fn) :
    (∀ u, resolve fn = some u →
      processContent resolve content =
        joinWith u (splitParts t content).1 (splitParts t content).2) ∧
    (resolve fn = none → processContent resolve content = content) ∧
    content = joinWith t (splitParts t content).1 (splitParts t content).2 ∧
    (∀ p ∈ (splitParts t content).1 :: (splitParts t content).2,
      containsTok t p = false) := by
  have htok : t ≠ [] := extractFilename_tok_ne_nil h2
  refine ⟨?_, ?_, ?_, ?_⟩
  · intro u hu
    unfold processContent
    rw [h1]
    simp only [List.foldl_cons, List.foldl_nil]
    simp only [resolveStep, h2, hu]
    unfold replaceAllL splitParts
    exact replaceAllFuel_eq_joinWith t u content.length content
  · intro hu
    unfold processContent
    rw [h1]
    simp only [List.foldl_cons, List.foldl_nil]
    simp only [resolveStep, h2, hu]
  · unfold splitParts
    exact (splitPartsFuel_join t htok content.length content (Nat.le_refl _)).symm
  · unfold splitParts
    exact splitPartsFuel_no_tok t htok content.length content (Nat.le_refl _)

/-- C2, counterexample: the file contains the two distinct matched
tokens `shopify://files/a` (resolving to `u`) and `shopify://files/ab`
(not resolving).  The claim requires every occurrence of the unresolved
token to be left untouched, but the global replace of the first token
rewrites the second token's occurrence too:
`"shopify://files/a shopify://files/ab"` becomes `"u ub"`, which no
longer contains `shopify://files/ab`. -/
theorem c2_counterexample :
    dedupFirst (findMatches cexContent) = [cexTokA, cexTokAB] ∧
    extractFilename cexTokAB = some "ab".data ∧
    cexResolver "ab".data = none ∧
    containsTok cexTokAB cexContent = true ∧
    processContent cexResolver cexContent = "u ub".data ∧
    containsTok cexTokAB (processContent cexResolver cexContent) = false := by
  refine ⟨by decide, by decide, by decide, by decide, by decide, by decide⟩

/-- C2 witness: a file with the single resolvable token. -/
theorem c2_witness :
    dedupFirst (findMatches c2wContent) = [cexTokA] ∧
    extractFilename cexTokA = some "a".data ∧
    cexResolver "a".data = some "u".data ∧
    processContent cexResolver c2wContent =
      joinWith "u".data (splitParts cexTokA c2wContent).1
        (splitParts cexTokA c2wContent).2 :=
  ⟨by decide, by decide, by decide,
   (c2_rewrite_single_token cexResolver c2wContent cexTokA ("a".data)
      (by decide) (by decide)).1 ("u".data) (by decide)⟩

/-! ## C5: second-run behavior of the rewriter -/

theorem resolveStep_id {resolve : List Char → Option (List Char)}
    {content tok : List Char}
    (h : (extractFilename tok).bind resolve = none) :
    resolveStep resolve content tok = content := by
  unfold resolveStep
  cases he : extractFilename tok with
  | none => simp
  | some fn =>
    rw [he] at h
    simp only [Option.some_bind] at h
    simp [h]

theorem foldl_resolveStep_id (resolve : List Char → Option (List Char))
    (l : List (List Char))
    (h : ∀ t ∈ l, (extractFilename t).bind resolve = none) :
    ∀ content, l.foldl (resolveStep resolve) content = content := by
  induction l with
  | nil => intro c; rfl
  | cons x xs ih =>
    intro c
    simp only [List.foldl_cons]
    rw [resolveStep_id (h x (by simp))]
    exact ih (fun t ht => h t (List.mem_cons_of_mem _ ht)) c

/-- C5 (amended): a second run of the rewriter is a no-op whenever every
distinct token still present in the first run's output fails to resolve
— in particular whenever the output contains no protocol token at all.
This is the realistic situation: a token surviving the first run is one
whose lookup failed, and the same deterministic resolver fails on it
again.  Unrestricted, the claim is false: a resolver whose resolved URL
itself contains a protocol token makes the second run modify the file
again (`c5_counterexample`). -/
theorem c5_second_run_noop (resolve : List Char → Option (List Char))
    (content : List Char)
    (h : ∀ t ∈ dedupFirst (findMatches (processContent resolve content)),
      (extractFilename t).bind resolve = none) :
    processContent resolve (processContent resolve content) =
      processContent resolve content :=
  foldl_resolveStep_id resolve _ h _

/-- C5, counterexample: the deterministic resolver maps `a` to the URL
`shopify://files/b` and `b` to `c`.  The first run rewrites
`shopify://files/a` to `shopify://files/b`; the second run resolves the
new token and modifies the file again, so the second run does not
modify zero files. -/
theorem c5_counterexample :
    processContent cexResolver2 cexTokA = "shopify://files/b".data ∧
    processContent cexResolver2 (processContent cexResolver2 cexTokA) = "c".data ∧
    "shopify://files/b".data ≠ "c".data := by
  refine ⟨by decide, by decide, by decide⟩

/-- C5 witness: after the first run over a file whose only token
resolves to a plain URL, the output has no tokens and the second run
leaves it unchanged. -/
theorem c5_witness :
    (∀ t ∈ dedupFirst (findMatches (processContent cexResolver c2wContent)),
      (extractFilename t).bind cexResolver = none) ∧
    processContent cexResolver (processContent cexResolver c2wContent) =
      processContent cexResolver c2wContent :=
  ⟨by decide, c5_second_run_noop cexResolver c2wContent (by decide)⟩

/-! ## C6 and C9: duplicate-check behavior in the dedupe loop -/

/-- C6: in dedupe mode, a descriptor for which the duplicate check
reports an existing match is skipped: the iteration issues only the
search query and no `fileCreate` call, and the descriptor is counted
and recorded as skipped. -/
theorem c6_dedupe_skip (m : MediaItem)
    (h : checkMediaExists m.lookupResp = true) :
    stepEvents m = [SyncEvent.existsQuery (searchQueryFor m.filename)] ∧
    (∀ f, SyncEvent.createCall f ∉ stepEvents m) ∧
    (∀ st, syncStep st m =
      { st with skipped := st.skipped + 1,
                skippedFiles := st.skippedFiles ++ [m.filename] }) := by
  refine ⟨?_, ?_, ?_⟩
  · unfold stepEvents
    rw [if_pos h]
  · intro f
    unfold stepEvents
    rw [if_pos h]
    simp
  · intro st
    unfold syncStep
    rw [if_pos h]

/-- C6 witness: a descriptor whose duplicate check returns one edge is
skipped without any create call. -/
theorem c6_witness :
    checkMediaExists mediaDup.lookupResp = true ∧
    stepEvents mediaDup = [SyncEvent.existsQuery (searchQueryFor "dup.png")] ∧
    SyncEvent.createCall "dup.png" ∉ stepEvents mediaDup ∧
    syncStep initCounts mediaDup = ⟨0, 1, 0, [], ["dup.png"], []⟩ :=
  ⟨by decide,
   (c6_dedupe_skip mediaDup (by decide)).1,
   (c6_dedupe_skip mediaDup (by decide)).2.1 "dup.png",
   (c6_dedupe_skip mediaDup (by decide)).2.2 initCounts⟩

/-- C9: when the duplicate-check request itself fails, `checkMediaExists`
catches the error and returns `false`; the descriptor is treated exactly
like one whose lookup succeeded with zero matches — a create is
attempted and the lookup failure itself is not recorded as a per-file
failure (the outcome is then determined by the create response alone). -/
theorem c9_lookup_error_treated_as_absent (m : MediaItem) (e : String)
    (h : m.lookupResp = .error e) :
    checkMediaExists m.lookupResp = false ∧
    SyncEvent.createCall m.filename ∈ stepEvents m ∧
    (∀ st, syncStep st m = syncStep st ⟨m.filename, m.mtype, .ok [], m.createResp⟩) := by
  have hc : checkMediaExists m.lookupResp = false := by
    rw [h]; rfl
  refine ⟨hc, ?_, ?_⟩
  · unfold stepEvents
    rw [if_neg (by simp [hc])]
    simp
  · intro st
    unfold syncStep
    rw [if_neg (by simp [hc])]
    rw [if_neg (by simp [checkMediaExists])]

/-- C9 witness: a transport error on the duplicate check leads to an
attempted (and here successful) create, not to a recorded failure. -/
theorem c9_witness :
    mediaErr.lookupResp = Except.error "ECONNRESET" ∧
    checkMediaExists mediaErr.lookupResp = false ∧
    SyncEvent.createCall "x.png" ∈ stepEvents mediaErr ∧
    syncStep initCounts mediaErr = ⟨1, 0, 0, ["x.png"], [], []⟩ :=
  ⟨rfl,
   (c9_lookup_error_treated_as_absent mediaErr "ECONNRESET" rfl).1,
   (c9_lookup_error_treated_as_absent mediaErr "ECONNRESET" rfl).2.1,
   by decide⟩

/-! ## C10: bucket invariant of the dedupe loop -/

theorem syncStep_sum (items : List MediaItem) :
    ∀ st : SyncCounts,
      (items.foldl syncStep st).success + (items.foldl syncStep st).skipped +
        (items.foldl syncStep st).failed =
      st.success + st.skipped + st.failed + items.length := by
  induction items with
  | nil => intro st; simp
  | cons m ms ih =>
    intro st
    simp only [List.foldl_cons, List.length_cons]
    rw [ih (syncStep st m)]
    unfold syncStep
    by_cases h : checkMediaExists m.lookupResp
    · rw [if_pos h]; simp; omega
    · rw [if_neg h]
      cases createMediaInTarget m.createResp with
      | ok u => simp; omega
      | failed e => simp; omega

theorem syncStep_preserves (st : SyncCounts) (m : MediaItem)
    (h1 : st.synced.length = st.success)
    (h2 : st.skippedFiles.length = st.skipped)
    (h3 : st.failedFiles.length = st.failed) :
    (syncStep st m).synced.length = (syncStep st m).success ∧
    (syncStep st m).skippedFiles.length = (syncStep st m).skipped ∧
    (syncStep st m).failedFiles.length = (syncStep st m).failed := by
  unfold syncStep
  by_cases h : checkMediaExists m.lookupResp
  · rw [if_pos h]; simp [h1, h2, h3]
  · rw [if_neg h]
    cases createMediaInTarget m.createResp with
    | ok u => simp [h1, h2, h3]
    | failed e => simp [h1, h2, h3]

theorem syncStep_foldl_lengths (items : List MediaItem) :
    ∀ st : SyncCounts,
      st.synced.length = st.success → st.skippedFiles.length = st.skipped →
      st.failedFiles.length = st.failed →
      (items.foldl syncStep st).synced.length = (items.foldl syncStep st).success ∧
      (items.foldl syncStep st).skippedFiles.length =
        (items.foldl syncStep st).skipped ∧
      (items.foldl syncStep st).failedFiles.length =
        (items.foldl syncStep st).failed := by
  induction items with
  | nil => intro st h1 h2 h3; exact ⟨h1, h2, h3⟩
  | cons m ms ih =>
    intro st h1 h2 h3
    simp only [List.foldl_cons]
    obtain ⟨g1, g2, g3⟩ := syncStep_preserves st m h1 h2 h3
    exact ih (syncStep st m) g1 g2 g3

/-- C10: after each loop iteration (every prefix of the descriptor list)
each processed descriptor sits in exactly one outcome bucket:
`successCount + skippedCount + failureCount` equals the number of
descriptors processed so far, the bucket detail lists have exactly the
counters' lengths, and at loop end the sum equals the total number of
listed descriptors. -/
theorem c10_bucket_invariant (items : List MediaItem) (n : Nat) :
    ((items.take n).foldl syncStep initCounts).success +
      ((items.take n).foldl syncStep initCounts).skipped +
      ((items.take n).foldl syncStep initCounts).failed = (items.take n).length ∧
    ((items.take n).foldl syncStep initCounts).synced.length =
      ((items.take n).foldl syncStep initCounts).success ∧
    ((items.take n).foldl syncStep initCounts).skippedFiles.length =
      ((items.take n).foldl syncStep initCounts).skipped ∧
    ((items.take n).foldl syncStep initCounts).failedFiles.length =
      ((items.take n).foldl syncStep initCounts).failed ∧
    (syncMedia items).success + (syncMedia items).skipped +
      (syncMedia items).failed = items.length := by
  have hsum := syncStep_sum (items.take n) initCounts
  have hbuck := syncStep_foldl_lengths (items.take n) initCounts rfl rfl rfl
  have hfull := syncStep_sum items initCounts
  refine ⟨?_, hbuck.1, hbuck.2.1, hbuck.2.2, ?_⟩
  · rw [hsum]; simp [initCounts]
  · unfold syncMedia; rw [hfull]; simp [initCounts]

/-- C10 witness: the invariant after two iterations over a concrete
batch (one skipped, one synced, one still unprocessed). -/
theorem c10_witness :
    ((cexItems.take 2).foldl syncStep initCounts).success +
      ((cexItems.take 2).foldl syncStep initCounts).skipped +
      ((cexItems.take 2).foldl syncStep initCounts).failed =
      (cexItems.take 2).length :=
  (c10_bucket_invariant cexItems 2).1

/-! ## C3: orchestrator resilience of the direct sync -/

theorem directStep_foldl (files : List FileItem) :
    ∀ st : DirectCounts,
      (files.foldl directStep st).attempts =
        st.attempts ++ files.map (fun f => f.filename) ∧
      (files.foldl directStep st).success + (files.foldl directStep st).failed =
        st.success + st.failed + files.length ∧
      (files.foldl directStep st).failedFiles = st.failedFiles ++
        files.filterMap (fun f =>
          match createFileInStaging f.createResp with
          | .ok _ => none
          | .failed e => some (f.filename, e)) := by
  induction files with
  | nil => intro st; simp
  | cons f fs ih =>
    intro st
    simp only [List.foldl_cons, List.map_cons, List.length_cons,
      List.filterMap_cons]
    cases hc : createFileInStaging f.createResp with
    | ok u =>
      simp only [directStep, hc]
      obtain ⟨ha, hs, hf⟩ :=
        ih { st with success := st.success + 1,
                     attempts := st.attempts ++ [f.filename] }
      refine ⟨?_, ?_, ?_⟩
      · rw [ha]; simp
      · rw [hs]; simp; omega
      · rw [hf]
    | failed e =>
      simp only [directStep, hc]
      obtain ⟨ha, hs, hf⟩ :=
        ih { st with failed := st.failed + 1,
                     attempts := st.attempts ++ [f.filename],
                     failedFiles := st.failedFiles ++ [(f.filename, e)] }
      refine ⟨?_, ?_, ?_⟩
      · rw [ha]; simp
      · rw [hs]; simp; omega
      · rw [hf]; simp

/-- C3: a per-descriptor materialization failure (transport error or
API-reported validation error, both caught inside
`createFileInStaging`) never aborts the run: with valid configuration
and a successful listing, the run completes (exit status 0), every
descriptor's create is attempted in order, each failure is tallied and
recorded with its message, and the run is fatal (exit status 1) exactly
when the configuration holds placeholder credentials or the listing
itself failed. -/
theorem c3_orchestrator_resilience (prodToken stagToken : String) :
    (∀ listing : Except String (List FileItem),
      syncFiles prodToken stagToken listing = RunResult.fatal ↔
        (placeholderConfig prodToken stagToken = true ∨
          ∃ e, listing = .error e)) ∧
    (placeholderConfig prodToken stagToken = false →
      ∀ files : List FileItem,
        syncFiles prodToken stagToken (.ok files) =
          RunResult.completed (files.foldl directStep initDirect) ∧
        (files.foldl directStep initDirect).attempts =
          files.map (fun f => f.filename) ∧
        (files.foldl directStep initDirect).success +
          (files.foldl directStep initDirect).failed = files.length ∧
        (files.foldl directStep initDirect).failedFiles =
          files.filterMap (fun f =>
            match createFileInStaging f.createResp with
            | .ok _ => none
            | .failed e => some (f.filename, e))) := by
  constructor
  · intro listing
    unfold syncFiles
    by_cases hc : placeholderConfig prodToken stagToken = true
    · rw [if_pos hc]
      simp [hc]
    · rw [if_neg hc]
      cases listing with
      | error e =>
        simp only
        constructor
        · intro _; exact Or.inr ⟨e, rfl⟩
        · intro _; trivial
      | ok files =>
        simp only
        constructor
        · intro h; exact absurd h (by simp)
        · rintro (h | ⟨e, he⟩)
          · exact absurd h hc
          · exact absurd he (by simp)
  · intro hc files
    have hd := directStep_foldl files initDirect
    refine ⟨?_, ?_, ?_, ?_⟩
    · unfold syncFiles
      rw [if_neg (by simp [hc])]
    · rw [hd.1]; simp [initDirect]
    · rw [hd.2.1]; simp [initDirect]
    · rw [hd.2.2]; simp [initDirect]

/-- C3 witness: a batch of five descriptors whose third create fails
with a transport error still attempts all five, tallies 4 succeeded and
1 failed, records the failure, and completes (exit 0). -/
theorem c3_witness :
    placeholderConfig "prod-token" "stag-token" = false ∧
    syncFiles "prod-token" "stag-token" (.ok cexFiles) =
      RunResult.completed (cexFiles.foldl directStep initDirect) ∧
    (cexFiles.foldl directStep initDirect).success = 4 ∧
    (cexFiles.foldl directStep initDirect).failed = 1 ∧
    (cexFiles.foldl directStep initDirect).attempts =
      ["f1.png", "f2.png", "f3.png", "f4.png", "f5.png"] ∧
    (cexFiles.foldl directStep initDirect).failedFiles =
      [("f3.png", "network error")] :=
  ⟨by decide,
   ((c3_orchestrator_resilience "prod-token" "stag-token").2 (by decide) cexFiles).1,
   by decide, by decide, by decide, by decide⟩

/-! ## C7: record classification order -/

/-- C7: each raw listing record is classified into exactly one kind by
checking the image payload first, then the generic-file payload, then
the video payload; a record carrying none of the three contributes
nothing to the page's descriptor list (dropped silently, neither
counted nor reported).  For the media listing (`fetchSourceMedia`) the
records carry only image/video payloads and the GraphQL union
guarantees a node matches exactly one inline fragment, so under that
mutual-exclusivity assumption its two independent pushes yield the same
exactly-one-kind classification with the image payload checked first. -/
theorem c7_classification_order (n : RawNode) :
    (classifyNode n = none ↔
      n.imageUrl = none ∧ n.genericUrl = none ∧ n.videoUrl = none) ∧
    (∀ u, n.imageUrl = some u →
      classifyNode n =
        some ⟨n.alt.getD "", n.createdAt, u, "IMAGE", getFilenameFromUrlStr u⟩) ∧
    (n.imageUrl = none → ∀ u, n.genericUrl = some u →
      classifyNode n =
        some ⟨n.alt.getD "", n.createdAt, u, "FILE", getFilenameFromUrlStr u⟩) ∧
    (n.imageUrl = none → n.genericUrl = none → ∀ u, n.videoUrl = some u →
      classifyNode n =
        some ⟨n.alt.getD "", n.createdAt, u, "VIDEO", getFilenameFromUrlStr u⟩) ∧
    (∀ nodes : List RawNode, classifyNode n = none →
      processPageNodes (n :: nodes) = processPageNodes nodes) ∧
    (∀ mn : MediaNode, ¬(mn.imageUrl ≠ none ∧ mn.videoUrl ≠ none) →
      ((mediaEntriesOfNode mn = [] ↔
          mn.imageUrl = none ∧ mn.videoUrl = none) ∧
       (∀ u, mn.imageUrl = some u →
         mediaEntriesOfNode mn =
           [⟨"IMAGE", u, mn.alt.getD "", getFilenameFromUrlStr u⟩]) ∧
       (mn.imageUrl = none → ∀ u, mn.videoUrl = some u →
         mediaEntriesOfNode mn =
           [⟨"VIDEO", u, mn.alt.getD "", getFilenameFromUrlStr u⟩]))) := by
  refine ⟨?_, ?_, ?_, ?_, ?_, ?_⟩
  · unfold classifyNode
    cases h1 : n.imageUrl <;> cases h2 : n.genericUrl <;>
      cases h3 : n.videoUrl <;> simp
  · intro u hu
    unfold classifyNode
    rw [hu]
  · intro h1 u hu
    unfold classifyNode
    rw [h1, hu]
  · intro h1 h2 u hu
    unfold classifyNode
    rw [h1, h2, hu]
  · intro nodes hnone
    unfold processPageNodes
    simp [List.filterMap_cons, hnone]
  · intro mn hex
    refine ⟨?_, ?_, ?_⟩
    · unfold mediaEntriesOfNode
      cases h1 : mn.imageUrl <;> cases h2 : mn.videoUrl <;> simp
    · intro u hu
      unfold mediaEntriesOfNode
      rw [hu]
      cases h2 : mn.videoUrl with
      | none => simp
      | some v => exact absurd ⟨by simp [hu], by simp [h2]⟩ hex
    · intro h1 u hu
      unfold mediaEntriesOfNode
      rw [h1, hu]
      simp

/-- C7 witness: a record with both an image and a video URL field set
to nothing but a generic-file URL is classified as a generic file, and
a payload-free record is dropped from the page. -/
theorem c7_witness :
    classifyNode ⟨some "alt", "2024-01-01", none, some "https://cdn.example/f.pdf", none⟩ =
      some ⟨"alt", "2024-01-01", "https://cdn.example/f.pdf", "FILE", "f.pdf"⟩ ∧
    processPageNodes [⟨none, "2024-01-01", none, none, none⟩] = [] :=
  ⟨by
    have h := (c7_classification_order
      ⟨some "alt", "2024-01-01", none, some "https://cdn.example/f.pdf", none⟩).2.2.1
      rfl "https://cdn.example/f.pdf" rfl
    rw [h]
    rfl,
   by
    have h := (c7_classification_order ⟨none, "2024-01-01", none, none, none⟩).2.2.2.2.1
      [] (by decide)
    exact h⟩

/-! ## C4: staged upload multipart order, status set, registration -/

/-- C4: the multipart body holds the server-supplied form fields in
exactly the staged-target order followed by the file part last; the
upload is treated as successful iff the response status is 200, 201 or
204; and on success the `fileCreate` registration input's
`originalSource` is exactly the `resourceUrl` returned by the
staged-target request. -/
theorem c4_staged_upload (t : StagedTarget) (filename alt : String) :
    ((buildMultipartParts t filename).take t.parameters.length =
      t.parameters.map (fun p => FormPart.field p.name p.value)) ∧
    ((buildMultipartParts t filename).getLast? =
      some (FormPart.filePart filename)) ∧
    ((buildMultipartParts t filename).length = t.parameters.length + 1) ∧
    (∀ status, uploadStatusOk status = true ↔
      (status = 200 ∨ status = 201 ∨ status = 204)) ∧
    (∀ status, uploadStatusOk status = true →
      uploadToStagedUrl t status = .ok t.resourceUrl) ∧
    (∀ status, uploadStatusOk status = false →
      uploadToStagedUrl t status =
        .error ("Upload failed: " ++ toString status)) ∧
    (∀ (sd : StagedData) (status : Nat) (rest : List StagedTarget),
      sd.stagedTargets = t :: rest → sd.userErrors = [] →
      uploadStatusOk status = true →
      uploadFile filename alt (.ok sd) status =
        .ok (buildMultipartParts t filename,
             ⟨if alt = "" then filename else alt, "FILE", t.resourceUrl⟩)) := by
  refine ⟨?_, ?_, ?_, ?_, ?_, ?_, ?_⟩
  · unfold buildMultipartParts
    rw [show t.parameters.length =
      (t.parameters.map (fun p => FormPart.field p.name p.value)).length by simp]
    exact List.take_left _ _
  · unfold buildMultipartParts
    simp
  · unfold buildMultipartParts
    simp
  · intro status
    unfold uploadStatusOk
    constructor
    · intro h
      simp only [Bool.or_eq_true, beq_iff_eq] at h
      tauto
    · intro h
      simp only [Bool.or_eq_true, beq_iff_eq]
      tauto
  · intro status h
    unfold uploadToStagedUrl
    rw [if_pos h]
  · intro status h
    unfold uploadToStagedUrl
    rw [if_neg (by simp [h])]
  · intro sd status rest h1 h2 h3
    have hup : uploadToStagedUrl t status = .ok t.resourceUrl := by
      unfold uploadToStagedUrl
      rw [if_pos h3]
    unfold uploadFile
    simp only [h1, h2, hup]
    rw [if_neg (by simp)]

/-- C4 witness: a staged target with three server fields, a 201 upload
response, and the registration input carrying the staged target's
`resourceUrl`. -/
theorem c4_witness :
    stagedOk.stagedTargets = [stagedT] ∧
    stagedOk.userErrors = [] ∧
    uploadStatusOk 201 = true ∧
    uploadFile "a.png" "" (.ok stagedOk) 201 =
      .ok (buildMultipartParts stagedT "a.png",
           ⟨"a.png", "FILE", "gcs://tmp/res-1"⟩) :=
  ⟨rfl, rfl, by decide,
   (c4_staged_upload stagedT "a.png" "").2.2.2.2.2.2 stagedOk 201 [] rfl rfl
     (by decide)⟩
